import Mathlib

/-!
Verification of the f1-stats-app query pipeline (src/main.py).

Strings are modelled as `List Char`.  Python's `str.lower`, `str.strip`,
substring membership (the `in` operator), `str.split`, and the two regular
expressions used by the code are embedded as executable functions below,
restricted to ASCII (the inputs of interest are ASCII SQL text; Python's
Unicode lowering never produces an ASCII uppercase letter, so the facts
proved here about uppercase letters agree with Python on all inputs).
-/

/-- ASCII whitespace, as stripped by Python's `str.strip` and matched by
the regex class `\s` (space, tab, newline, carriage return, vertical tab,
form feed). -/
def isSpace (c : Char) : Bool :=
  c = ' ' || c = '\t' || c = '\n' || c = '\r' || c.toNat = 11 || c.toNat = 12

/-- Regex word character `\w` (ASCII): letters, digits, underscore. -/
def isWordChar (c : Char) : Bool :=
  c.isAlphanum || c = '_'

/-- ASCII lowering of one character, the ASCII restriction of Python's
`str.lower`. -/
def lowerChar (c : Char) : Char :=
  if 65 ≤ c.toNat ∧ c.toNat ≤ 90 then Char.ofNat (c.toNat + 32) else c

/-- Python `s.lower()` on `List Char`. -/
def pyLower (s : List Char) : List Char :=
  s.map lowerChar

/-- Right strip: remove trailing ASCII whitespace. -/
def rstripFn (l : List Char) : List Char :=
  (l.reverse.dropWhile isSpace).reverse

/-- Python `str.strip()`: remove leading and trailing whitespace. -/
def pyStrip (l : List Char) : List Char :=
  rstripFn (l.dropWhile isSpace)

/-- Python's substring test `needle in hay`. -/
def substrB (needle : List Char) : List Char → Bool
  | [] => needle.isEmpty
  | c :: t => needle.isPrefixOf (c :: t) || substrB needle (t)

/-- The longest proper part of `l` strictly before the first occurrence of
`sep`; all of `l` when `sep` does not occur. -/
def takeUntilSep (sep : List Char) : List Char → List Char
  | [] => []
  | c :: t => if sep.isPrefixOf (c :: t) then [] else c :: takeUntilSep sep t

/-- The suffix of `l` after the last occurrence of `sep` (all of `l` when
`sep` does not occur).  Since `"SQL:"` does not overlap itself, this is the
last element of Python's `l.split(sep)`. -/
def afterLastSep (sep : List Char) (l : List Char) : List Char :=
  (takeUntilSep sep.reverse l.reverse).reverse

/-- The literal `SELECT` of the code's regex `^\s*SELECT\b` (note: upper
case, matched without `re.IGNORECASE`). -/
def selectKw : List Char := "SELECT".toList

/-- The test `re.match(r"^\s*SELECT\b", s)` as a Boolean: leading `\s*`, then the
literal `SELECT`, then a word boundary. -/
def reMatchSelect (s : List Char) : Bool :=
  let r := s.dropWhile isSpace
  selectKw.isPrefixOf r &&
    (match r.drop 6 with
     | [] => true
     | c :: _ => !(isWordChar c))

/-- The `dangerous_keywords` list of src/main.py line 254. -/
def dangerousKeywords : List (List Char) :=
  ["drop".toList, "delete".toList, "truncate".toList, "alter".toList,
   "insert".toList, "update".toList]

/-- The `allowed_tables` set of src/main.py line 264. -/
def allowedTables : List (List Char) :=
  ["circuits".toList, "constructors".toList, "drivers".toList,
   "races".toList, "results".toList]

/-- Line 255: `any(keyword in sql_lower for keyword in dangerous_keywords)`,
applied to the lowered query.  `true` means the check raises. -/
def dangerousCheck (sqlLower : List Char) : Bool :=
  dangerousKeywords.any (fun k => substrB k sqlLower)

/-- Line 265: `any(table in sql_lower for table in allowed_tables)`.
`false` means the check raises. -/
def tableCheckPasses (sqlLower : List Char) : Bool :=
  allowedTables.any (fun tb => substrB tb sqlLower)

def onlySelectMsg : List Char := "Only SELECT queries are allowed".toList

def keywordRejectMsg : List Char := "Unsafe SQL query detected".toList

def invalidTableMsg : List Char := "Invalid table referenced".toList

def emptyQueryMsg : List Char := "Query cannot be empty".toList

def genFailMsg : List Char := "Failed to generate SQL query".toList

def dbErrMsg : List Char := "Database error".toList

def internalErrMsg : List Char := "Internal server error".toList

def connErrMsg : List Char := "Database connection error".toList

/-- The validation sequence of src/main.py lines 244-272, applied to the
candidate SQL string.  `some msg` means an `HTTPException(400, msg)` was
raised by that check; `none` means all three checks passed. -/
def validate (sql : List Char) : Option (List Char) :=
  let sqlLower := pyLower sql
  if !(reMatchSelect sqlLower) then some onlySelectMsg
  else if dangerousCheck sqlLower then some keywordRejectMsg
  else if !(tableCheckPasses sqlLower) then some invalidTableMsg
  else none

/-! ### Definitions following the wording of the specification
These are the comparison definitions for the claims that describe the
validator the spec asks for; they are deliberately written from the spec's
words, not from the code. -/

/-- Follows the spec's words: the trimmed string begins, case
insensitively, with the keyword SELECT. -/
def specBeginsSelect (s : List Char) : Bool :=
  "select".toList.isPrefixOf (pyLower (pyStrip s))

/-- Word boundary to the left: start of string or a non word character. -/
def boundaryBefore : Option Char → Bool
  | none => true
  | some p => !(isWordChar p)

/-- Word boundary to the right of a keyword: end of string or a non word
character. -/
def noWordCharHead : List Char → Bool
  | [] => true
  | c :: _ => !(isWordChar c)

/-- Scan helper: does `k` occur in the remaining text as a whole word,
given the previous character? -/
def hasWholeWordFrom (k : List Char) : Option Char → List Char → Bool
  | _, [] => false
  | prev, c :: t =>
    (boundaryBefore prev && k.isPrefixOf (c :: t)
      && noWordCharHead ((c :: t).drop k.length))
    || hasWholeWordFrom k (some c) t

/-- Whether `k` occurs in `s` as a whole word (regex `\b k \b`). -/
def hasWholeWord (k : List Char) (s : List Char) : Bool :=
  hasWholeWordFrom k none s

/-- Follows the spec's words: the candidate contains one of the ten
forbidden keywords as a whole word, case insensitively. -/
def specForbiddenWholeWord (s : List Char) : Bool :=
  ["drop".toList, "delete".toList, "truncate".toList, "alter".toList,
   "insert".toList, "update".toList, "create".toList, "exec".toList,
   "union".toList, "into".toList].any (fun k => hasWholeWord k (pyLower s))

/-- Characters that may make up a (possibly qualified) table identifier. -/
def identChar (c : Char) : Bool :=
  isWordChar c || c = '.'

/-- Scan helper for `specFromJoinTargets`. -/
def fromJoinAux : Option Char → List Char → List (List Char)
  | _, [] => []
  | prev, c :: t =>
    if boundaryBefore prev
        && ("from".toList.isPrefixOf (c :: t) || "join".toList.isPrefixOf (c :: t))
        && noWordCharHead ((c :: t).drop 4) then
      (((c :: t).drop 4).dropWhile isSpace).takeWhile identChar
        :: fromJoinAux (some c) t
    else fromJoinAux (some c) t

/-- Follows the spec's words: every identifier following `FROM` or `JOIN`
(case-insensitive, whole word), on the lowered candidate. -/
def specFromJoinTargets (s : List Char) : List (List Char) :=
  fromJoinAux none (pyLower s)

/-! ### Claims about the validator -/

/-- A candidate satisfying all of claim C1's hypotheses. -/
def c1input : List Char := "SELECT name FROM drivers".toList

/-- The candidate refuting claim C3: `update` occurs only inside the
longer identifier `updated_at`, so the whole-word check of the claim must
not fire, yet the code's substring check does. -/
def c3input : List Char := "SELECT updated_at FROM drivers".toList

/-- The candidate refuting claim C4: its only FROM target is the
unauthorized `pg_catalog.pg_tables`, but the allowed name `drivers`
appears elsewhere in the string, so the code's check passes. -/
def c4input : List Char := "SELECT drivers FROM pg_catalog.pg_tables".toList

/-! ### Output extraction (generate_sql_query, src/main.py lines 172-203) -/

/-- The label stripped by `sql_query.split("SQL:")[-1]`. -/
def sqlLabel : List Char := "SQL:".toList

/-- A triple-backtick fence. -/
def fenceL : List Char := "```".toList

/-- The optional fence language tag. -/
def sqlTag : List Char := "sql".toList

/-- The search `re.search(r"```(?:sql)?(.*?)```", s, re.DOTALL)`: group 1 of the
first match.  At each candidate start the regex first tries to consume the
`sql` tag, then takes the shortest body followed by a closing fence. -/
def fenceSearch : List Char → Option (List Char)
  | [] => none
  | c :: t =>
    if fenceL.isPrefixOf (c :: t) then
      if sqlTag.isPrefixOf ((c :: t).drop 3) && substrB fenceL (((c :: t).drop 3).drop 3) then
        some (takeUntilSep fenceL (((c :: t).drop 3).drop 3))
      else if substrB fenceL ((c :: t).drop 3) then
        some (takeUntilSep fenceL ((c :: t).drop 3))
      else fenceSearch t
    else fenceSearch t

/-- The extraction pipeline applied to the LLM response text (lines
183-193): strip, take the part after the last `SQL:`, strip, then if a
fence is present take the first fenced group (stripped; an unmatched fence
leaves `None`).  `none` models the `ValueError` raised when the result is
empty or the fence failed to match. -/
def extractCore (s1 : List Char) : Option (List Char) :=
  match (if substrB fenceL s1 then (fenceSearch s1).map pyStrip else some s1) with
  | none => none
  | some s2 => if s2 = [] then none else some s2

/-- Full extraction: strip, take the part after the last `SQL:` label,
strip again, then the fence handling of `extractCore`. -/
def extractSql (t : List Char) : Option (List Char) :=
  extractCore (pyStrip (afterLastSep sqlLabel (pyStrip t)))

/-- Outcome of the external LLM call in `generate_sql_query`:
`unavailable` covers an exception from `generate_content` as well as a
falsy `response`/`response.text`; `reply t` is a response with text `t`. -/
inductive LLMBehavior where
  | unavailable
  | reply (text : List Char)

/-- A Python exception in flight inside `run_query`: an `HTTPException`
carrying status and detail message, a `psycopg2.Error`, or any other
exception (e.g. the `UnboundLocalError` raised in the `finally` block). -/
inductive PyExc where
  | http (status : Nat) (msg : List Char)
  | pg (msg : List Char)
  | uncaught (msg : List Char)

/-- The function `generate_sql_query` (lines 172-203): every failure inside its `try`
is converted by its own `except` into `HTTPException(500, "Failed to
generate SQL query")`. -/
def generate_sql_query : LLMBehavior → Except PyExc (List Char)
  | .unavailable => .error (.http 500 genFailMsg)
  | .reply t =>
    if t = [] then .error (.http 500 genFailMsg)
    else
      match extractSql t with
      | none => .error (.http 500 genFailMsg)
      | some q => .ok q

/-! ### Execution (lines 274-291) and the request handler -/

/-- Behavior of `cur.execute`/`fetchall`: a `psycopg2.Error`, or a result
set with its column descriptors (in database order) and rows. -/
inductive ExecBehavior (α : Type) where
  | execFail (msg : List Char)
  | execOk (cols : List (List Char)) (rows : List (List α))

/-- Behavior of `conn.cursor()`: it may itself raise (e.g. a stale pooled
connection), or yield a cursor whose execution behaves as given. -/
inductive CursorBehavior (α : Type) where
  | cursorFail
  | run (e : ExecBehavior α)

/-- Behavior of the database layer: `connection_pool.getconn()` may raise,
or a connection is checked out and behaves as given. -/
inductive DbBehavior (α : Type) where
  | connFail
  | connOk (c : CursorBehavior α)

/-- Python's `dict` insert: an existing key keeps its position and gets
the new value, a new key is appended. -/
def pyDictInsert {α : Type} (d : List (List Char × α)) (k : List Char) (v : α) :
    List (List Char × α) :=
  if d.any (fun p => p.1 == k) then
    d.map (fun p => if p.1 == k then (k, v) else p)
  else d ++ [(k, v)]

/-- Python's `dict(pairs)`: left fold of inserts. -/
def pyDict {α : Type} (l : List (List Char × α)) : List (List Char × α) :=
  l.foldl (fun d p => pyDictInsert d p.1 p.2) []

/-- Line 281: `dict(zip(columns, row))`. -/
def formatRow {α : Type} (cols : List (List Char)) (row : List α) :
    List (List Char × α) :=
  pyDict (cols.zip row)

/-- Lookup in a Python dict (first — and only — entry with the key). -/
def dictLookup {α : Type} (k : List Char) (d : List (List Char × α)) : Option α :=
  (d.find? (fun p => p.1 == k)).map Prod.snd

/-- The success payload returned by `run_query` (lines 283-288). -/
structure Payload (α : Type) where
  query : List Char
  sql : List Char
  results : List (List (List Char × α))
  count : Nat

/-- Trace of one pass through the execution block (lines 274-291):
the outcome propagating out of `try/finally`, whether a connection was
requested from the pool, the exact string passed to `cur.execute`, and
whether `connection_pool.putconn` ran. -/
structure ExecTrace (α : Type) where
  outcome : Except PyExc (Payload α)
  connRequested : Bool
  executedSql : Option (List Char)
  putconnCalled : Bool

/-- The execution block of `run_query` (lines 274-291).  Note the
`finally` runs `cur.close()` before `putconn`; when `conn.cursor()` itself
raised, `cur` is unbound, so the `finally` raises `UnboundLocalError` and
`putconn` is never reached. -/
def executeQuery {α : Type} (nl sql : List Char) : DbBehavior α → ExecTrace α
  | .connFail => ⟨.error (.http 500 connErrMsg), true, none, false⟩
  | .connOk .cursorFail =>
    ⟨.error (.uncaught ("cannot access local variable cur".toList)), true, none, false⟩
  | .connOk (.run (.execFail m)) => ⟨.error (.pg m), true, some sql, true⟩
  | .connOk (.run (.execOk cols rows)) =>
    ⟨.ok ⟨nl, sql, rows.map (formatRow cols), (rows.map (formatRow cols)).length⟩,
      true, some sql, true⟩

/-- The HTTP response the client sees: a 200 with the payload, or the
error envelope produced by the custom exception handler. -/
inductive HttpOut (α : Type) where
  | success (p : Payload α)
  | error (status : Nat) (message : List Char)

/-- The two `except` clauses of `run_query` (lines 293-308) followed by
the app's `HTTPException` handler: a `psycopg2.Error` becomes a 400
"Database error"; every other exception — including the deliberately
raised `HTTPException(400, ...)` of the validation checks — is caught by
the blanket `except Exception` and re-raised as a 500 "Internal server
error". -/
def finishExc {α : Type} : PyExc → HttpOut α
  | .pg _ => .error 400 dbErrMsg
  | .http _ _ => .error 500 internalErrMsg
  | .uncaught _ => .error 500 internalErrMsg

/-- Full trace of one request through `run_query`. -/
structure RunResult (α : Type) where
  response : HttpOut α
  llmCalled : Bool
  connRequested : Bool
  executedSql : Option (List Char)
  putconnCalled : Bool

/-- The validation-and-execution tail of `run_query`, entered with the
extracted candidate `sql` in hand. -/
def handleSql {α : Type} (q sql : List Char) (db : DbBehavior α) : RunResult α :=
  match validate sql with
  | some m => ⟨finishExc (.http 400 m), true, false, none, false⟩
  | none =>
    let t := executeQuery q sql db
    ⟨(match t.outcome with
      | .ok p => .success p
      | .error e => finishExc e),
      true, t.connRequested, t.executedSql, t.putconnCalled⟩

/-- The `/query` handler `run_query` (lines 224-308): empty-input check,
generation, validation, execution, and exception mapping. -/
def run_query {α : Type} (q : List Char) (llm : LLMBehavior) (db : DbBehavior α) :
    RunResult α :=
  if pyStrip q = [] then
    ⟨finishExc (.http 400 emptyQueryMsg), false, false, none, false⟩
  else
    match generate_sql_query llm with
    | .error e => ⟨finishExc e, true, false, none, false⟩
    | .ok sql => handleSql q sql db

/-- A fixed non-empty user query used to drive the handler in theorems
about generation and validation failures. -/
def probeQ : List Char := ['q']

/-! ### The SELECT-shape check can never succeed
`sql_lower` is the lowered candidate, yet the regex looks for the upper
case literal `SELECT`; a lowered string never contains `'S'`. -/

theorem lowerChar_ne_upperS (c : Char) : lowerChar c ≠ 'S' := by
  unfold lowerChar
  split
  · rename_i h
    obtain ⟨h1, h2⟩ := h
    intro hc
    have hval : (Char.ofNat (c.toNat + 32)).toNat = 'S'.toNat := by rw [hc]
    generalize hg : c.toNat = n at h1 h2 hval
    interval_cases n <;> simp_all
  · rename_i h
    intro hc
    subst hc
    exact h (by decide)

theorem not_mem_pyLower_upperS (s : List Char) : 'S' ∉ pyLower s := by
  intro hmem
  obtain ⟨c, _, hc⟩ := List.mem_map.mp hmem
  exact lowerChar_ne_upperS c hc

theorem selectKw_no_match (u : List Char) (h : 'S' ∉ u) :
    selectKw.isPrefixOf u = false := by
  cases u with
  | nil => rfl
  | cons c t =>
    have hc : c ≠ 'S' := fun hc => h (hc ▸ List.mem_cons_self c t)
    show (('S' :: "ELECT".toList).isPrefixOf (c :: t)) = false
    simp [List.isPrefixOf]
    intro hSc
    exact absurd hSc.symm hc

theorem reMatchSelect_lower_false (s : List Char) :
    reMatchSelect (pyLower s) = false := by
  unfold reMatchSelect
  have hdrop : 'S' ∉ (pyLower s).dropWhile isSpace := by
    intro hmem
    exact not_mem_pyLower_upperS s ((List.dropWhile_sublist _).mem hmem)
  simp [selectKw_no_match _ hdrop]

/-- The first validation check rejects every candidate: the pattern
`^\s*SELECT\b` (upper case) is matched against the lowered string. -/
theorem validate_rejects_all (sql : List Char) :
    validate sql = some onlySelectMsg := by
  unfold validate
  simp [reMatchSelect_lower_false]

/-! ### Substring occurrences as explicit decompositions -/

theorem isPrefixOf_iff_append (n : List Char) :
    ∀ u : List Char, n.isPrefixOf u = true ↔ ∃ b, u = n ++ b := by
  induction n with
  | nil => intro u; simp [List.isPrefixOf]
  | cons a n2 ih =>
    intro u
    cases u with
    | nil => simp [List.isPrefixOf]
    | cons c t =>
      constructor
      · intro h
        have h2 := h
        simp only [List.isPrefixOf, Bool.and_eq_true, beq_iff_eq] at h2
        obtain ⟨hac, hpre⟩ := h2
        obtain ⟨b, hb⟩ := (ih t).mp hpre
        exact ⟨b, by rw [hac, hb]; rfl⟩
      · rintro ⟨b, hb⟩
        injection hb with h1 h2
        simp only [List.isPrefixOf, Bool.and_eq_true, beq_iff_eq]
        exact ⟨h1.symm, (ih t).mpr ⟨b, h2⟩⟩

theorem substrB_iff (n : List Char) :
    ∀ h : List Char, substrB n h = true ↔ ∃ a b, h = a ++ n ++ b := by
  intro h
  induction h with
  | nil =>
    cases n with
    | nil => simp [substrB]
    | cons c t => simp [substrB]
  | cons c t ih =>
    simp only [substrB, Bool.or_eq_true, ih, isPrefixOf_iff_append]
    constructor
    · rintro (⟨b, hb⟩ | ⟨a, b, hab⟩)
      · exact ⟨[], b, by rw [hb]; rfl⟩
      · exact ⟨c :: a, b, by rw [hab]; rfl⟩
    · rintro ⟨a, b, hab⟩
      cases a with
      | nil => exact Or.inl ⟨b, by simpa using hab⟩
      | cons x a2 =>
        rw [List.cons_append, List.cons_append] at hab
        injection hab with h1 h2
        exact Or.inr ⟨a2, b, h2⟩

theorem substrB_extend {n u w : List Char} (h : substrB n u = true)
    (hw : ∃ a b, w = a ++ u ++ b) : substrB n w = true := by
  obtain ⟨a1, b1, h1⟩ := (substrB_iff n u).mp h
  obtain ⟨a, b, hab⟩ := hw
  exact (substrB_iff n w).mpr ⟨a ++ a1, b1 ++ b, by simp [hab, h1]⟩

/-- C1: refuted by the code.  The candidate `SELECT name FROM drivers`
begins with SELECT (case-insensitively, after trimming), contains no
forbidden keyword as a whole word, and its only FROM/JOIN target is the
allowed table `drivers`; yet the validator rejects it (with the
"Only SELECT queries are allowed" message), because the code matches the
upper-case pattern `^\s*SELECT\b` against the lowered string, which can
never succeed.  So the query never proceeds to execution. -/
theorem c1_valid_select_rejected :
    specBeginsSelect c1input = true
    ∧ specForbiddenWholeWord c1input = false
    ∧ specFromJoinTargets c1input ≠ []
    ∧ (specFromJoinTargets c1input).all (fun tg => allowedTables.contains tg) = true
    ∧ validate c1input = some onlySelectMsg
    ∧ ∀ db : DbBehavior Nat,
        (run_query probeQ (LLMBehavior.reply c1input) db).executedSql = none
        ∧ (run_query probeQ (LLMBehavior.reply c1input) db).connRequested = false :=
  ⟨by decide, by decide, by decide, by decide, validate_rejects_all c1input,
   fun _ => ⟨rfl, rfl⟩⟩

/-- C5: confirmed.  Any candidate whose trimmed form does not begin
case-insensitively with SELECT is rejected with the NotASelect message
"Only SELECT queries are allowed".  (In fact the code rejects every
candidate at this check, which makes the claimed implication hold.) -/
theorem c5_not_select_rejected (s : List Char)
    (h : specBeginsSelect s = false) :
    validate s = some onlySelectMsg :=
  validate_rejects_all s

/-- Witness for C5 at the concrete non-SELECT candidate
`DROP TABLE drivers;`. -/
theorem c5_witness :
    specBeginsSelect ("DROP TABLE drivers;".toList) = false
    ∧ validate ("DROP TABLE drivers;".toList) = some onlySelectMsg :=
  ⟨by decide, c5_not_select_rejected ("DROP TABLE drivers;".toList) (by decide)⟩

/-- C3: counterexample.  On `SELECT updated_at FROM drivers` the code's
forbidden-keyword check fires (substring match on `update`), although the
candidate contains none of the ten spec keywords as a whole word — the
claimed "if and only if whole-word match" is false at this input, and in
particular the claim's own `updated_at` example is rejected. -/
theorem c3_counterexample :
    dangerousCheck (pyLower c3input) = true
    ∧ specForbiddenWholeWord c3input = false := by
  constructor
  · decide
  · decide

/-- C3 (amended): the forbidden-keyword check fires iff one of the SIX
keywords drop, delete, truncate, alter, insert, update occurs as a
case-insensitive substring of the candidate (no word boundaries; create,
exec, union, into are not checked).  Hence a bare UPDATE statement is
rejected, while bare UNION and INTO are not. -/
theorem c3_amended_substring_six :
    (∀ s : List Char, dangerousCheck (pyLower s) = true
      ↔ ∃ k a b, k ∈ dangerousKeywords ∧ pyLower s = a ++ k ++ b)
    ∧ dangerousCheck (pyLower ("UPDATE drivers SET points = 0".toList)) = true
    ∧ dangerousCheck (pyLower ("SELECT a UNION SELECT b FROM races".toList)) = false
    ∧ dangerousCheck (pyLower ("SELECT x INTO y FROM races".toList)) = false := by
  refine ⟨fun s => ?_, by decide, by decide, by decide⟩
  unfold dangerousCheck
  rw [List.any_eq_true]
  constructor
  · rintro ⟨k, hk, hsub⟩
    obtain ⟨a, b, hab⟩ := (substrB_iff k (pyLower s)).mp hsub
    exact ⟨k, a, b, hk, hab⟩
  · rintro ⟨k, a, b, hk, hab⟩
    exact ⟨k, hk, (substrB_iff k (pyLower s)).mpr ⟨a, b, hab⟩⟩

/-- C4: counterexample.  `SELECT drivers FROM pg_catalog.pg_tables`
references only the unauthorized table `pg_catalog.pg_tables` after FROM,
so per the claim it must be rejected with UnauthorizedTable; the code's
table check passes it, because it merely asks whether any allowed table
name occurs as a substring anywhere (here `drivers`, used as a column). -/
theorem c4_counterexample :
    tableCheckPasses (pyLower c4input) = true
    ∧ (specFromJoinTargets c4input).all (fun tg => allowedTables.contains tg) = false
    ∧ specFromJoinTargets c4input ≠ [] := by
  refine ⟨by decide, by decide, by decide⟩

/-- C4 (amended): the table check rejects (message "Invalid table
referenced", the only message it has) iff none of the five allowed table
names occurs as a case-insensitive substring anywhere in the candidate; it
does not extract FROM/JOIN targets.  The spec's example
`SELECT * FROM pg_catalog.pg_tables` is indeed rejected, since it contains
no allowed name at all. -/
theorem c4_amended_substring_any :
    (∀ s : List Char, tableCheckPasses (pyLower s) = false
      ↔ ∀ tb ∈ allowedTables, ¬ ∃ a b, pyLower s = a ++ tb ++ b)
    ∧ tableCheckPasses (pyLower ("SELECT * FROM pg_catalog.pg_tables".toList)) = false := by
  refine ⟨fun s => ?_, by decide⟩
  unfold tableCheckPasses
  rw [← Bool.not_eq_true, List.any_eq_true]
  constructor
  · intro hno tb htb ⟨a, b, hab⟩
    exact hno ⟨tb, htb, (substrB_iff tb (pyLower s)).mpr ⟨a, b, hab⟩⟩
  · rintro hall ⟨tb, htb, hsub⟩
    obtain ⟨a, b, hab⟩ := (substrB_iff tb (pyLower s)).mp hsub
    exact hall tb htb ⟨a, b, hab⟩

/-! ### Lemmas about strips, substrings and separators, used for the
extraction theorems -/

theorem dropWhile_append_eq (p : Char → Bool) (l1 l2 : List Char) :
    (l1 ++ l2).dropWhile p =
      if l1.dropWhile p = [] then l2.dropWhile p else l1.dropWhile p ++ l2 := by
  induction l1 with
  | nil => simp
  | cons a t ih =>
    by_cases hp : p a
    · simpa [List.dropWhile_cons, hp] using ih
    · simp [List.dropWhile_cons, hp]

theorem substrB_false_of_head_not_mem (x : Char) (r : List Char) :
    ∀ w : List Char, x ∉ w → substrB (x :: r) w = false := by
  intro w
  induction w with
  | nil => intro _; rfl
  | cons c t ih =>
    intro h
    have hxc : (x == c) = false := by
      rw [beq_eq_false_iff_ne]
      intro he
      exact h (he ▸ List.mem_cons_self c t)
    have hpre : (x :: r).isPrefixOf (c :: t) = false := by
      simp [List.isPrefixOf, hxc]
    simp [substrB, hpre, ih (fun hm => h (List.mem_cons_of_mem c hm))]

theorem substrB_append_left_nomem {n : List Char} (a z : List Char)
    (hne : n ≠ []) (h : ∀ x ∈ a, x ∉ n) :
    substrB n (a ++ z) = substrB n z := by
  induction a with
  | nil => rfl
  | cons x a2 ih =>
    have hx : x ∉ n := h x (List.mem_cons_self x a2)
    have hpre : n.isPrefixOf (x :: (a2 ++ z)) = false := by
      cases n with
      | nil => exact absurd rfl hne
      | cons m n2 =>
        have hmx : (m == x) = false := by
          rw [beq_eq_false_iff_ne]
          intro he
          exact hx (by rw [← he]; exact List.mem_cons_self m n2)
        simp [List.isPrefixOf, hmx]
    show substrB n (x :: (a2 ++ z)) = substrB n z
    simp only [substrB, hpre, Bool.false_or]
    exact ih (fun y hy => h y (List.mem_cons_of_mem x hy))

theorem nil_isPrefixOf_eq (w : List Char) :
    ([] : List Char).isPrefixOf w = true := by
  cases w <;> rfl

theorem isPrefixOf_append_nomem (b : List Char) :
    ∀ n u : List Char, (∀ x ∈ b, x ∉ n) →
      n.isPrefixOf (u ++ b) = n.isPrefixOf u := by
  intro n
  induction n with
  | nil => intro u _; rw [nil_isPrefixOf_eq, nil_isPrefixOf_eq]
  | cons m n2 ih =>
    intro u h
    cases u with
    | nil =>
      show (m :: n2).isPrefixOf b = (m :: n2).isPrefixOf []
      cases b with
      | nil => rfl
      | cons y b2 =>
        have hy : y ∉ m :: n2 := h y (List.mem_cons_self y b2)
        have hmy : (m == y) = false := by
          rw [beq_eq_false_iff_ne]
          intro he
          exact hy (by rw [← he]; exact List.mem_cons_self m n2)
        simp [List.isPrefixOf, hmy]
    | cons c t =>
      show (m :: n2).isPrefixOf (c :: (t ++ b)) = (m :: n2).isPrefixOf (c :: t)
      simp only [List.isPrefixOf]
      rw [ih t (fun x hx hmem => h x hx (List.mem_cons_of_mem m hmem))]

theorem substrB_append_right_nomem (n b : List Char)
    (hne : n ≠ []) (h : ∀ x ∈ b, x ∉ n) :
    ∀ u : List Char, substrB n (u ++ b) = substrB n u := by
  have hbfalse : substrB n b = false := by
    cases n with
    | nil => exact absurd rfl hne
    | cons m n2 =>
      exact substrB_false_of_head_not_mem m n2 b
        (fun hm => by
          obtain ⟨x, hx, hxn⟩ : ∃ x ∈ b, x = m := ⟨m, hm, rfl⟩
          exact h x hx (hxn ▸ List.mem_cons_self m n2))
  intro u
  induction u with
  | nil =>
    show substrB n b = substrB n []
    rw [hbfalse]
    cases n with
    | nil => exact absurd rfl hne
    | cons m n2 => rfl
  | cons c t ih =>
    show (n.isPrefixOf (c :: (t ++ b)) || substrB n (t ++ b))
        = (n.isPrefixOf (c :: t) || substrB n t)
    rw [ih, show c :: (t ++ b) = (c :: t) ++ b from rfl,
      isPrefixOf_append_nomem b n (c :: t) h]

theorem isPrefixOf_self_eq (x : Char) (r : List Char) :
    (x :: r).isPrefixOf (x :: r) = true :=
  (isPrefixOf_iff_append (x :: r) (x :: r)).mpr ⟨[], (List.append_nil _).symm⟩

theorem takeUntilSep_self (x : Char) (r : List Char) :
    takeUntilSep (x :: r) (x :: r) = [] := by
  simp [takeUntilSep, isPrefixOf_self_eq]

theorem takeUntilSep_of_no_occ (s : List Char) :
    ∀ w : List Char, substrB s w = false → takeUntilSep s w = w := by
  intro w
  induction w with
  | nil => intro _; rfl
  | cons c t ih =>
    intro h
    have hsplit : s.isPrefixOf (c :: t) = false ∧ substrB s t = false := by
      simpa only [substrB, Bool.or_eq_false_iff] using h
    simp [takeUntilSep, hsplit.1, ih hsplit.2]

theorem takeUntilSep_append_self (x : Char) (r : List Char) :
    ∀ q : List Char, x ∉ q →
      takeUntilSep (x :: r) (q ++ (x :: r)) = q := by
  intro q
  induction q with
  | nil =>
    intro _
    rw [List.nil_append]
    exact takeUntilSep_self x r
  | cons c q2 ih =>
    intro hmem
    have hxc : (x == c) = false := by
      rw [beq_eq_false_iff_ne]
      intro he
      exact hmem (he ▸ List.mem_cons_self c q2)
    have hpre : (x :: r).isPrefixOf (c :: (q2 ++ (x :: r))) = false := by
      simp [List.isPrefixOf, hxc]
    show takeUntilSep (x :: r) (c :: (q2 ++ (x :: r))) = c :: q2
    simp [takeUntilSep, hpre, ih (fun hm => hmem (List.mem_cons_of_mem c hm))]

theorem substrB_reverse (n w : List Char) :
    substrB n.reverse w.reverse = substrB n w := by
  cases hx : substrB n w with
  | true =>
    obtain ⟨a, b, hab⟩ := (substrB_iff n w).mp hx
    exact (substrB_iff n.reverse w.reverse).mpr
      ⟨b.reverse, a.reverse, by rw [hab]; simp⟩
  | false =>
    cases hy : substrB n.reverse w.reverse with
    | false => rfl
    | true =>
      obtain ⟨a, b, hab⟩ := (substrB_iff _ _).mp hy
      have hw : w = b.reverse ++ n ++ a.reverse := by
        have h2 := congrArg List.reverse hab
        simpa [List.reverse_append] using h2
      have := (substrB_iff n w).mpr ⟨b.reverse, a.reverse, hw⟩
      rw [hx] at this
      exact absurd this (by simp)

theorem afterLastSep_of_no_occ (sep l : List Char) (h : substrB sep l = false) :
    afterLastSep sep l = l := by
  unfold afterLastSep
  rw [takeUntilSep_of_no_occ _ _ (by rw [substrB_reverse]; exact h),
    List.reverse_reverse]

/-- Case analysis specific to the separator `"SQL:"`: scanning the
reversed text, the reversed separator cannot begin strictly inside `v`
followed by itself (its characters pairwise preclude the overlap), so the
separator appended at the end is found exactly at the end. -/
theorem takeUntil_revLabel :
    ∀ v : List Char, substrB sqlLabel.reverse v = false →
      takeUntilSep sqlLabel.reverse (v ++ sqlLabel.reverse) = v := by
  intro v
  induction v with
  | nil =>
    intro _
    rw [List.nil_append]
    exact takeUntilSep_self ':' ['L', 'Q', 'S']
  | cons c v2 ih =>
    intro h
    have hsplit : sqlLabel.reverse.isPrefixOf (c :: v2) = false
        ∧ substrB sqlLabel.reverse v2 = false := by
      simpa only [substrB, Bool.or_eq_false_iff] using h
    obtain ⟨h1, h2⟩ := hsplit
    have hpre : sqlLabel.reverse.isPrefixOf (c :: (v2 ++ sqlLabel.reverse)) = false := by
      cases hT : sqlLabel.reverse.isPrefixOf (c :: (v2 ++ sqlLabel.reverse)) with
      | false => rfl
      | true =>
        exfalso
        rw [show sqlLabel.reverse = ':' :: 'L' :: 'Q' :: 'S' :: [] from rfl] at hT h1
        simp only [List.isPrefixOf, Bool.and_eq_true, beq_iff_eq] at hT
        obtain ⟨hc, hT2⟩ := hT
        subst hc
        cases v2 with
        | nil => exact absurd hT2 (by decide)
        | cons d v3 =>
          simp only [List.cons_append, List.isPrefixOf, Bool.and_eq_true,
            beq_iff_eq] at hT2
          obtain ⟨hd, hT3⟩ := hT2
          subst hd
          cases v3 with
          | nil => exact absurd hT3 (by decide)
          | cons e v4 =>
            simp only [List.cons_append, List.isPrefixOf, Bool.and_eq_true,
              beq_iff_eq] at hT3
            obtain ⟨he, hT4⟩ := hT3
            subst he
            cases v4 with
            | nil => exact absurd hT4 (by decide)
            | cons f v5 =>
              simp only [List.cons_append, List.isPrefixOf, Bool.and_eq_true,
                beq_iff_eq] at hT4
              obtain ⟨hf, _⟩ := hT4
              subst hf
              simp [List.isPrefixOf] at h1
    show takeUntilSep sqlLabel.reverse (c :: (v2 ++ sqlLabel.reverse)) = c :: v2
    simp [takeUntilSep, hpre, ih h2]

theorem afterLastSep_label (u : List Char) (h : substrB sqlLabel u = false) :
    afterLastSep sqlLabel (sqlLabel ++ u) = u := by
  unfold afterLastSep
  rw [List.reverse_append,
    takeUntil_revLabel u.reverse (by rw [substrB_reverse]; exact h),
    List.reverse_reverse]

theorem dropWhile_nonspace (c : Char) (t : List Char) (hc : isSpace c = false) :
    (c :: t).dropWhile isSpace = c :: t := by
  simp [List.dropWhile_cons, hc]

theorem rev_dropWhile_of_rstrip (q : List Char) (hq5 : rstripFn q = q) :
    q.reverse.dropWhile isSpace = q.reverse := by
  have h2 := congrArg List.reverse hq5
  rwa [rstripFn, List.reverse_reverse] at h2

theorem rstrip_append_right (w z : List Char)
    (hz : z.reverse.dropWhile isSpace = z.reverse) (hzne : z ≠ []) :
    rstripFn (w ++ z) = w ++ z := by
  unfold rstripFn
  rw [List.reverse_append, dropWhile_append_eq, hz, if_neg (by simpa using hzne)]
  simp [List.reverse_append]

theorem pyStrip_of_trimmed (q : List Char)
    (hq4 : q.dropWhile isSpace = q) (hq5 : rstripFn q = q) : pyStrip q = q := by
  unfold pyStrip
  rw [hq4, hq5]

theorem extractCore_of_no_fence (q : List Char)
    (hfq : substrB fenceL q = false) (hq6 : q ≠ []) :
    extractCore q = some q := by
  simp [extractCore, hfq, hq6]

/-- Extraction on a plain trimmed reply (no label, no fence) returns it
unchanged. -/
theorem extract_plain (q : List Char)
    (h1 : substrB sqlLabel q = false) (h2 : '`' ∉ q)
    (hq4 : q.dropWhile isSpace = q) (hq5 : rstripFn q = q) (hq6 : q ≠ []) :
    extractSql q = some q := by
  have hps : pyStrip q = q := pyStrip_of_trimmed q hq4 hq5
  have hfq : substrB fenceL q = false :=
    substrB_false_of_head_not_mem '`' ['`', '`'] q h2
  show extractCore (pyStrip (afterLastSep sqlLabel (pyStrip q))) = some q
  rw [hps, afterLastSep_of_no_occ _ _ h1, hps]
  exact extractCore_of_no_fence q hfq hq6

/-- Extraction strips a leading `SQL:` label. -/
theorem extract_label (q : List Char)
    (h1 : substrB sqlLabel q = false) (h2 : '`' ∉ q)
    (hq4 : q.dropWhile isSpace = q) (hq5 : rstripFn q = q) (hq6 : q ≠ []) :
    extractSql (sqlLabel ++ q) = some q := by
  have hps : pyStrip q = q := pyStrip_of_trimmed q hq4 hq5
  have hrev := rev_dropWhile_of_rstrip q hq5
  have hfq : substrB fenceL q = false :=
    substrB_false_of_head_not_mem '`' ['`', '`'] q h2
  have hs0 : pyStrip (sqlLabel ++ q) = sqlLabel ++ q := by
    unfold pyStrip
    rw [show sqlLabel ++ q = 'S' :: ("QL:".toList ++ q) from rfl,
      dropWhile_nonspace 'S' _ (by decide),
      show 'S' :: ("QL:".toList ++ q) = sqlLabel ++ q from rfl,
      rstrip_append_right sqlLabel q hrev hq6]
  show extractCore (pyStrip (afterLastSep sqlLabel (pyStrip (sqlLabel ++ q)))) = some q
  rw [hs0, afterLastSep_label q h1, hps]
  exact extractCore_of_no_fence q hfq hq6

/-- Extraction strips a leading `SQL:` label and then trims the space
after it. -/
theorem extract_label_space (q : List Char)
    (h1 : substrB sqlLabel q = false) (h2 : '`' ∉ q)
    (hq4 : q.dropWhile isSpace = q) (hq5 : rstripFn q = q) (hq6 : q ≠ []) :
    extractSql (sqlLabel ++ (' ' :: q)) = some q := by
  have hrev := rev_dropWhile_of_rstrip q hq5
  have hfq : substrB fenceL q = false :=
    substrB_false_of_head_not_mem '`' ['`', '`'] q h2
  have hs0 : pyStrip (sqlLabel ++ (' ' :: q)) = sqlLabel ++ (' ' :: q) := by
    unfold pyStrip
    rw [show sqlLabel ++ (' ' :: q) = 'S' :: ("QL:".toList ++ (' ' :: q)) from rfl,
      dropWhile_nonspace 'S' _ (by decide),
      show 'S' :: ("QL:".toList ++ (' ' :: q)) = (sqlLabel ++ [' ']) ++ q from rfl,
      rstrip_append_right (sqlLabel ++ [' ']) q hrev hq6]
  have hnolab : substrB sqlLabel (' ' :: q) = false := by
    rw [show (' ' :: q) = [' '] ++ q from rfl,
      substrB_append_left_nomem [' '] q (by decide) (by decide)]
    exact h1
  have hps2 : pyStrip (' ' :: q) = q := by
    unfold pyStrip
    rw [show (' ' :: q).dropWhile isSpace = q.dropWhile isSpace from by
        simp [List.dropWhile_cons, show isSpace ' ' = true from rfl],
      hq4, hq5]
  show extractCore (pyStrip (afterLastSep sqlLabel (pyStrip (sqlLabel ++ (' ' :: q))))) = some q
  rw [hs0, afterLastSep_label (' ' :: q) hnolab, hps2]
  exact extractCore_of_no_fence q hfq hq6

theorem pyStrip_fence_wrap (w : List Char) :
    pyStrip (('`' :: w) ++ fenceL) = ('`' :: w) ++ fenceL := by
  unfold pyStrip
  rw [show ('`' :: w) ++ fenceL = '`' :: (w ++ fenceL) from rfl,
    dropWhile_nonspace '`' _ (by decide),
    show '`' :: (w ++ fenceL) = ('`' :: w) ++ fenceL from rfl,
    rstrip_append_right ('`' :: w) fenceL (by decide) (by decide)]

/-- Extraction strips a `sql`-tagged fence around the reply. -/
theorem extract_fence_tagged (q : List Char)
    (h1 : substrB sqlLabel q = false) (h2 : '`' ∉ q)
    (hq4 : q.dropWhile isSpace = q) (hq5 : rstripFn q = q) (hq6 : q ≠ []) :
    extractSql (("```sql".toList ++ q) ++ fenceL) = some q := by
  have hps : pyStrip q = q := pyStrip_of_trimmed q hq4 hq5
  have hs0 : pyStrip (("```sql".toList ++ q) ++ fenceL)
      = ("```sql".toList ++ q) ++ fenceL := by
    have h3 := pyStrip_fence_wrap ("``sql".toList ++ q)
    simpa using h3
  have hsub : substrB sqlLabel (("```sql".toList ++ q) ++ fenceL) = false := by
    rw [substrB_append_right_nomem sqlLabel fenceL (by decide) (by decide),
      substrB_append_left_nomem "```sql".toList q (by decide) (by decide)]
    exact h1
  have hgate : substrB fenceL (("```sql".toList ++ q) ++ fenceL) = true := by
    apply (substrB_iff fenceL _).mpr
    exact ⟨[], sqlTag ++ (q ++ fenceL), by simp [fenceL, sqlTag]⟩
  have htake : takeUntilSep fenceL (q ++ fenceL) = q :=
    takeUntilSep_append_self '`' ['`', '`'] q h2
  have hsearch : fenceSearch ('`' :: ('`' :: ('`' :: ('s' :: ('q' :: ('l' :: (q ++ fenceL)))))))
      = some q := by
    have hc1 : fenceL.isPrefixOf
        ('`' :: ('`' :: ('`' :: ('s' :: ('q' :: ('l' :: (q ++ fenceL))))))) = true :=
      (isPrefixOf_iff_append fenceL _).mpr ⟨'s' :: ('q' :: ('l' :: (q ++ fenceL))), rfl⟩
    have hc2 : sqlTag.isPrefixOf
        (('`' :: ('`' :: ('`' :: ('s' :: ('q' :: ('l' :: (q ++ fenceL))))))).drop 3) = true :=
      (isPrefixOf_iff_append sqlTag _).mpr ⟨q ++ fenceL, rfl⟩
    have hc3 : substrB fenceL
        ((('`' :: ('`' :: ('`' :: ('s' :: ('q' :: ('l' :: (q ++ fenceL))))))).drop 3).drop 3)
        = true :=
      (substrB_iff fenceL _).mpr ⟨q, [], by simp⟩
    simp only [fenceSearch]
    rw [if_pos hc1, if_pos (by rw [hc2, hc3]; rfl)]
    show some (takeUntilSep fenceL (q ++ fenceL)) = some q
    rw [htake]
  show extractCore (pyStrip (afterLastSep sqlLabel
      (pyStrip (("```sql".toList ++ q) ++ fenceL)))) = some q
  rw [hs0, afterLastSep_of_no_occ _ _ hsub, hs0]
  have hW : ("```sql".toList ++ q) ++ fenceL
      = '`' :: ('`' :: ('`' :: ('s' :: ('q' :: ('l' :: (q ++ fenceL)))))) := rfl
  rw [hW] at hgate ⊢
  unfold extractCore
  rw [hgate, hsearch]
  simp [hps, hq6]

/-- Extraction strips an untagged fence around the reply (the reply must
not itself begin with the letters `sql`, which the regex would consume as
a tag). -/
theorem extract_fence_plain (q : List Char)
    (h1 : substrB sqlLabel q = false) (h2 : '`' ∉ q)
    (h3 : sqlTag.isPrefixOf q = false)
    (hq4 : q.dropWhile isSpace = q) (hq5 : rstripFn q = q) (hq6 : q ≠ []) :
    extractSql ((fenceL ++ q) ++ fenceL) = some q := by
  have hps : pyStrip q = q := pyStrip_of_trimmed q hq4 hq5
  have hs0 : pyStrip ((fenceL ++ q) ++ fenceL) = (fenceL ++ q) ++ fenceL := by
    have h4 := pyStrip_fence_wrap ("``".toList ++ q)
    simpa using h4
  have hsub : substrB sqlLabel ((fenceL ++ q) ++ fenceL) = false := by
    rw [substrB_append_right_nomem sqlLabel fenceL (by decide) (by decide),
      substrB_append_left_nomem fenceL q (by decide) (by decide)]
    exact h1
  have hgate : substrB fenceL ((fenceL ++ q) ++ fenceL) = true := by
    apply (substrB_iff fenceL _).mpr
    exact ⟨[], q ++ fenceL, by simp [fenceL]⟩
  have htake : takeUntilSep fenceL (q ++ fenceL) = q :=
    takeUntilSep_append_self '`' ['`', '`'] q h2
  have hsearch : fenceSearch ('`' :: ('`' :: ('`' :: (q ++ fenceL)))) = some q := by
    have hc1 : fenceL.isPrefixOf ('`' :: ('`' :: ('`' :: (q ++ fenceL)))) = true :=
      (isPrefixOf_iff_append fenceL _).mpr ⟨q ++ fenceL, rfl⟩
    have htag : sqlTag.isPrefixOf (('`' :: ('`' :: ('`' :: (q ++ fenceL)))).drop 3) = false := by
      show sqlTag.isPrefixOf (q ++ fenceL) = false
      rw [isPrefixOf_append_nomem fenceL sqlTag q (by decide)]
      exact h3
    have hc3 : substrB fenceL (('`' :: ('`' :: ('`' :: (q ++ fenceL)))).drop 3) = true :=
      (substrB_iff fenceL _).mpr ⟨q, [], by simp⟩
    simp only [fenceSearch]
    rw [if_pos hc1, if_neg (by rw [htag]; simp), if_pos hc3]
    show some (takeUntilSep fenceL (q ++ fenceL)) = some q
    rw [htake]
  show extractCore (pyStrip (afterLastSep sqlLabel
      (pyStrip ((fenceL ++ q) ++ fenceL)))) = some q
  rw [hs0, afterLastSep_of_no_occ _ _ hsub, hs0]
  have hW : (fenceL ++ q) ++ fenceL = '`' :: ('`' :: ('`' :: (q ++ fenceL))) := rfl
  rw [hW] at hgate ⊢
  unfold extractCore
  rw [hgate, hsearch]
  simp [hps, hq6]

theorem generate_none (t : List Char) (h7 : extractSql t = none) :
    generate_sql_query (.reply t) = .error (.http 500 genFailMsg) := by
  by_cases ht : t = []
  · subst ht; rfl
  · simp only [generate_sql_query]
    rw [if_neg ht, h7]

theorem run_query_extract_none {α : Type} (t : List Char) (db : DbBehavior α)
    (h7 : extractSql t = none) :
    run_query probeQ (.reply t) db
      = ⟨HttpOut.error 500 internalErrMsg, true, false, none, false⟩ := by
  unfold run_query
  rw [if_neg (show ¬(pyStrip probeQ = []) from by decide), generate_none t h7]
  rfl

/-- C7: confirmed.  Output extraction strips a `SQL:` label prefix if
present, strips one level of triple-backtick fencing (tagged `sql` or
not) if present, and trims surrounding whitespace; an empty (or
unusable) extraction is a generation failure which — like an unavailable
generation service — is surfaced as a server error (HTTP 500). -/
theorem c7_extraction (q t : List Char) {α : Type} (db : DbBehavior α)
    (h1 : substrB sqlLabel q = false) (h2 : '`' ∉ q)
    (h3 : sqlTag.isPrefixOf q = false)
    (h4 : q.dropWhile isSpace = q) (h5 : rstripFn q = q) (h6 : q ≠ [])
    (h7 : extractSql t = none) :
    extractSql q = some q
    ∧ extractSql (sqlLabel ++ q) = some q
    ∧ extractSql (sqlLabel ++ (' ' :: q)) = some q
    ∧ extractSql (("```sql".toList ++ q) ++ fenceL) = some q
    ∧ extractSql ((fenceL ++ q) ++ fenceL) = some q
    ∧ generate_sql_query (.reply t) = .error (.http 500 genFailMsg)
    ∧ (run_query probeQ (.reply t) db).response = HttpOut.error 500 internalErrMsg
    ∧ (run_query probeQ .unavailable db).response = HttpOut.error 500 internalErrMsg :=
  ⟨extract_plain q h1 h2 h4 h5 h6,
   extract_label q h1 h2 h4 h5 h6,
   extract_label_space q h1 h2 h4 h5 h6,
   extract_fence_tagged q h1 h2 h4 h5 h6,
   extract_fence_plain q h1 h2 h3 h4 h5 h6,
   generate_none t h7,
   by rw [run_query_extract_none t db h7],
   rfl⟩

/-- Witness for C7 at the concrete reply `select surname from drivers`
(and the empty reply for the failure half). -/
theorem c7_witness :
    extractSql ("select surname from drivers".toList)
      = some ("select surname from drivers".toList)
    ∧ extractSql (sqlLabel ++ "select surname from drivers".toList)
      = some ("select surname from drivers".toList)
    ∧ extractSql (sqlLabel ++ (' ' :: "select surname from drivers".toList))
      = some ("select surname from drivers".toList)
    ∧ extractSql (("```sql".toList ++ "select surname from drivers".toList) ++ fenceL)
      = some ("select surname from drivers".toList)
    ∧ extractSql ((fenceL ++ "select surname from drivers".toList) ++ fenceL)
      = some ("select surname from drivers".toList)
    ∧ generate_sql_query (.reply []) = .error (.http 500 genFailMsg)
    ∧ (run_query probeQ (.reply []) (DbBehavior.connFail (α := Nat))).response
      = HttpOut.error 500 internalErrMsg
    ∧ (run_query probeQ .unavailable (DbBehavior.connFail (α := Nat))).response
      = HttpOut.error 500 internalErrMsg :=
  c7_extraction "select surname from drivers".toList [] DbBehavior.connFail
    (by decide) (by decide) (by decide) (by decide) (by decide) (by decide) (by decide)

/-- C6: refuted by the code (the right check, the wrong status).  An
empty or whitespace-only query is rejected before the generator runs and
before any database activity — but the `HTTPException(400, "Query cannot
be empty")` the handler raises is caught by its own blanket
`except Exception` and re-raised as a 500 "Internal server error", so the
client sees a server error, not the claimed 400 EmptyQuery. -/
theorem c6_empty_query {α : Type} (q : List Char) (llm : LLMBehavior)
    (db : DbBehavior α) (h : pyStrip q = []) :
    run_query q llm db
      = ⟨HttpOut.error 500 internalErrMsg, false, false, none, false⟩ := by
  unfold run_query
  rw [if_pos h]
  rfl

/-- Witness for C6 at the whitespace-only input `"  "`. -/
theorem c6_witness :
    run_query "  ".toList LLMBehavior.unavailable (DbBehavior.connFail (α := Nat))
      = ⟨HttpOut.error 500 internalErrMsg, false, false, none, false⟩ :=
  c6_empty_query "  ".toList LLMBehavior.unavailable DbBehavior.connFail (by decide)

/-- C2: refuted by the code (the no-database half holds, the status half
does not).  When the validator rejects the generated candidate, no
connection is requested and nothing is executed; but the rejection's
`HTTPException(400, msg)` is caught by the handler's blanket
`except Exception` and re-raised as a 500 whose message is the generic
"Internal server error", not the violated rule. -/
theorem c2_rejection_response {α : Type} (q t sql m : List Char)
    (db : DbBehavior α)
    (h0 : ¬(pyStrip q = [])) (h2 : t ≠ [])
    (h1 : extractSql t = some sql) (h3 : validate sql = some m) :
    run_query q (.reply t) db
      = ⟨HttpOut.error 500 internalErrMsg, true, false, none, false⟩ := by
  have hg : generate_sql_query (.reply t) = .ok sql := by
    simp only [generate_sql_query]
    rw [if_neg h2, h1]
  unfold run_query
  rw [if_neg h0, hg]
  show handleSql q sql db = _
  unfold handleSql
  rw [h3]
  rfl

/-- Witness for C2: the end-to-end scenario where the generator returns
`DROP TABLE drivers;`. -/
theorem c2_witness :
    run_query probeQ (.reply ("DROP TABLE drivers;".toList))
        (DbBehavior.connFail (α := Nat))
      = ⟨HttpOut.error 500 internalErrMsg, true, false, none, false⟩ :=
  c2_rejection_response probeQ ("DROP TABLE drivers;".toList)
    ("DROP TABLE drivers;".toList) onlySelectMsg DbBehavior.connFail
    (by decide) (by decide) (by decide) (by decide)

/-! ### Python dict semantics: lemmas for the row-formatting claims -/

theorem pyDict_append {α : Type} (l : List (List Char × α)) (pr : List Char × α) :
    pyDict (l ++ [pr]) = pyDictInsert (pyDict l) pr.1 pr.2 := by
  simp [pyDict, List.foldl_append]

theorem any_beq_iff_mem {α : Type} (d : List (List Char × α)) (k : List Char) :
    d.any (fun p => p.1 == k) = true ↔ k ∈ d.map Prod.fst := by
  simp only [List.any_eq_true, beq_iff_eq, List.mem_map]

theorem map_fst_map_replace {α : Type} (d : List (List Char × α))
    (k : List Char) (v : α) :
    (d.map (fun p => if p.1 == k then (k, v) else p)).map Prod.fst
      = d.map Prod.fst := by
  induction d with
  | nil => rfl
  | cons p t ih =>
    by_cases hp : (p.1 == k) = true
    · have h1 : p.1 = k := eq_of_beq hp
      rw [List.map_cons, List.map_cons, if_pos hp, ih, List.map_cons, h1]
    · rw [List.map_cons, List.map_cons, if_neg hp, ih, List.map_cons]

theorem mem_keys_pyDict {α : Type} (l : List (List Char × α)) :
    ∀ k : List Char, k ∈ (pyDict l).map Prod.fst ↔ k ∈ l.map Prod.fst := by
  induction l using List.reverseRecOn with
  | nil => intro k; simp [pyDict]
  | append_singleton l pr ih =>
    intro k
    obtain ⟨a, b⟩ := pr
    rw [pyDict_append]
    unfold pyDictInsert
    by_cases hg : ((pyDict l).any (fun p => p.1 == a)) = true
    · have ha : a ∈ l.map Prod.fst := (ih a).mp ((any_beq_iff_mem _ a).mp hg)
      rw [if_pos hg, map_fst_map_replace]
      simp only [List.map_append, List.mem_append, List.map_cons, List.map_nil,
        List.mem_singleton, List.mem_cons, List.not_mem_nil, or_false]
      constructor
      · intro hk
        exact Or.inl ((ih k).mp hk)
      · rintro (hk | hk)
        · exact (ih k).mpr hk
        · exact (ih k).mpr (hk ▸ ha)
    · rw [if_neg hg]
      simp only [List.map_append, List.mem_append]
      constructor
      · rintro (hk | hk)
        · exact Or.inl ((ih k).mp hk)
        · exact Or.inr hk
      · rintro (hk | hk)
        · exact Or.inl ((ih k).mpr hk)
        · exact Or.inr hk

theorem pyDict_eq_self_of_nodup_keys {α : Type} (l : List (List Char × α))
    (h : (l.map Prod.fst).Nodup) : pyDict l = l := by
  induction l using List.reverseRecOn with
  | nil => rfl
  | append_singleton l pr ih =>
    obtain ⟨a, b⟩ := pr
    have h2 : (l.map Prod.fst).Nodup ∧ a ∉ l.map Prod.fst := by
      rw [List.map_append] at h
      simp only [List.map_cons, List.map_nil] at h
      rw [List.nodup_append] at h
      refine ⟨h.1, fun hmem => ?_⟩
      exact h.2.2 hmem (List.mem_singleton_self a)
    rw [pyDict_append, ih h2.1]
    unfold pyDictInsert
    rw [if_neg (fun hany => h2.2 ((any_beq_iff_mem l a).mp hany))]

theorem length_pyDict {α : Type} (l : List (List Char × α)) :
    (pyDict l).length = (l.map Prod.fst).toFinset.card := by
  induction l using List.reverseRecOn with
  | nil => simp [pyDict]
  | append_singleton l pr ih =>
    obtain ⟨a, b⟩ := pr
    rw [pyDict_append]
    unfold pyDictInsert
    have hto : ((l ++ [(a, b)]).map Prod.fst).toFinset
        = (l.map Prod.fst).toFinset ∪ {a} := by
      simp [List.toFinset_append]
    by_cases hg : ((pyDict l).any (fun p => p.1 == a)) = true
    · have ha : a ∈ l.map Prod.fst :=
        (mem_keys_pyDict l a).mp ((any_beq_iff_mem _ a).mp hg)
      rw [if_pos hg, List.length_map, ih, hto]
      have : (l.map Prod.fst).toFinset ∪ {a} = (l.map Prod.fst).toFinset := by
        rw [Finset.union_eq_left]
        simp [ha]
      rw [this]
    · have ha : a ∉ l.map Prod.fst :=
        fun hm => hg ((any_beq_iff_mem _ a).mpr ((mem_keys_pyDict l a).mpr hm))
      rw [if_neg hg, List.length_append, ih, hto,
        Finset.union_comm, ← Finset.insert_eq,
        Finset.card_insert_of_not_mem (by simp [ha])]
      rfl

theorem find_map_replace {α : Type} (d : List (List Char × α))
    (k : List Char) (v : α) (hd : d.any (fun p => p.1 == k) = true) :
    (d.map (fun p => if p.1 == k then (k, v) else p)).find? (fun p => p.1 == k)
      = some (k, v) := by
  induction d with
  | nil => exact absurd hd (by simp)
  | cons p t ih =>
    by_cases hp : (p.1 == k) = true
    · rw [List.map_cons, if_pos hp, List.find?_cons_of_pos _ (by simp)]
    · rw [List.map_cons, if_neg hp, List.find?_cons_of_neg _ (by simpa using hp)]
      apply ih
      have h2 := hd
      rw [List.any_cons, Bool.or_eq_true] at h2
      rcases h2 with h3 | h3
      · exact absurd h3 hp
      · exact h3

theorem dictLookup_append_single {α : Type} (d : List (List Char × α))
    (k : List Char) (v : α) (hd : d.any (fun p => p.1 == k) = false) :
    dictLookup k (d ++ [(k, v)]) = some v := by
  induction d with
  | nil =>
    show dictLookup k [(k, v)] = some v
    simp [dictLookup, List.find?]
  | cons p t ih =>
    have h2 : (p.1 == k) = false ∧ t.any (fun p => p.1 == k) = false := by
      simpa only [List.any_cons, Bool.or_eq_false_iff] using hd
    show dictLookup k (p :: (t ++ [(k, v)])) = some v
    unfold dictLookup
    rw [List.find?_cons_of_neg _ (by simp [h2.1])]
    exact ih h2.2

theorem lookup_insert_self {α : Type} (d : List (List Char × α))
    (k : List Char) (v : α) :
    dictLookup k (pyDictInsert d k v) = some v := by
  unfold pyDictInsert
  by_cases hd : (d.any (fun p => p.1 == k)) = true
  · rw [if_pos hd]
    unfold dictLookup
    rw [find_map_replace d k v hd]
    rfl
  · rw [if_neg hd]
    exact dictLookup_append_single d k v (Bool.of_not_eq_true hd ▸ rfl)

theorem find_map_replace_other {α : Type} (d : List (List Char × α))
    (k : List Char) (v : α) (k2 : List Char) (hne : (k == k2) = false) :
    (d.map (fun p => if p.1 == k then (k, v) else p)).find? (fun p => p.1 == k2)
      = d.find? (fun p => p.1 == k2) := by
  induction d with
  | nil => rfl
  | cons p t ih =>
    by_cases hp : (p.1 == k) = true
    · have h1 : p.1 = k := eq_of_beq hp
      have hp2 : (p.1 == k2) = false := by rw [h1]; exact hne
      rw [List.map_cons, if_pos hp,
        List.find?_cons_of_neg _ (by simpa using hne),
        List.find?_cons_of_neg _ (by simpa using hp2), ih]
    · by_cases hq : (p.1 == k2) = true
      · rw [List.map_cons, if_neg hp,
          List.find?_cons_of_pos _ (by simpa using hq),
          List.find?_cons_of_pos _ (by simpa using hq)]
      · rw [List.map_cons, if_neg hp,
          List.find?_cons_of_neg _ (by simpa using hq),
          List.find?_cons_of_neg _ (by simpa using hq), ih]

theorem find_append_single_other {α : Type} (d : List (List Char × α))
    (k : List Char) (v : α) (k2 : List Char) (hne : (k == k2) = false) :
    (d ++ [(k, v)]).find? (fun p => p.1 == k2) = d.find? (fun p => p.1 == k2) := by
  induction d with
  | nil =>
    show ([(k, v)]).find? (fun p => p.1 == k2) = List.find? (fun p => p.1 == k2) []
    rw [List.find?_cons_of_neg _ (by simpa using hne)]
  | cons p t ih =>
    by_cases hq : (p.1 == k2) = true
    · rw [List.cons_append,
        List.find?_cons_of_pos _ (by simpa using hq),
        List.find?_cons_of_pos _ (by simpa using hq)]
    · rw [List.cons_append,
        List.find?_cons_of_neg _ (by simpa using hq),
        List.find?_cons_of_neg _ (by simpa using hq), ih]

theorem lookup_insert_other {α : Type} (d : List (List Char × α))
    (a : List Char) (b : α) (k : List Char) (hne : (a == k) = false) :
    dictLookup k (pyDictInsert d a b) = dictLookup k d := by
  unfold pyDictInsert
  by_cases hd : (d.any (fun p => p.1 == a)) = true
  · rw [if_pos hd]
    unfold dictLookup
    rw [find_map_replace_other d a b k hne]
  · rw [if_neg hd]
    unfold dictLookup
    rw [find_append_single_other d a b k hne]

theorem dictLookup_pyDict_last {α : Type} (l : List (List Char × α)) :
    ∀ k : List Char, dictLookup k (pyDict l)
      = ((l.filter (fun p => p.1 == k)).getLast?).map Prod.snd := by
  induction l using List.reverseRecOn with
  | nil => intro k; rfl
  | append_singleton l pr ih =>
    intro k
    obtain ⟨a, b⟩ := pr
    rw [pyDict_append]
    by_cases hak : (a == k) = true
    · have ha : a = k := eq_of_beq hak
      subst ha
      rw [lookup_insert_self, List.filter_append]
      have hfil : List.filter (fun p => p.1 == a) [(a, b)] = [(a, b)] := by
        simp [List.filter]
      rw [hfil, List.getLast?_concat]
      rfl
    · rw [lookup_insert_other _ a b k (Bool.not_eq_true _ ▸ hak), List.filter_append]
      have hfil : List.filter (fun p => p.1 == k) [(a, b)] = [] := by
        simp [List.filter, hak]
      rw [hfil, List.append_nil]
      exact ih k

/-- C10: confirmed.  `dict(zip(columns, row))` keeps, for a duplicated
column name, only the value of the last column bearing that name, and the
row mapping then has strictly fewer keys than the statement has result
columns. -/
theorem c10_duplicate_columns {α : Type} (cols : List (List Char))
    (row : List α) (k : List Char)
    (hdup : ¬ cols.Nodup) (hlen : row.length = cols.length) :
    (formatRow cols row).length < cols.length
    ∧ dictLookup k (formatRow cols row)
      = (((cols.zip row).filter (fun p => p.1 == k)).getLast?).map Prod.snd := by
  constructor
  · have hkeys : (cols.zip row).map Prod.fst = cols :=
      List.map_fst_zip cols row (le_of_eq hlen.symm)
    rw [formatRow, length_pyDict, hkeys, List.card_toFinset]
    rcases lt_or_eq_of_le (List.Sublist.length_le (List.dedup_sublist cols)) with h | h
    · exact h
    · have heq : cols.dedup = cols :=
        List.Sublist.eq_of_length (List.dedup_sublist cols) h
      exact absurd (heq ▸ List.nodup_dedup cols) hdup
  · exact dictLookup_pyDict_last (cols.zip row) k

/-- Witness for C10: a two-column result set where both columns are named
`a`; the mapping keeps the second value only and has one key. -/
theorem c10_witness :
    (formatRow [['a'], ['a']] ([0, 1] : List Nat)).length < [['a'], ['a']].length
    ∧ dictLookup ['a'] (formatRow [['a'], ['a']] ([0, 1] : List Nat))
      = ((([['a'], ['a']].zip ([0, 1] : List Nat)).filter
          (fun p => p.1 == ['a'])).getLast?).map Prod.snd :=
  c10_duplicate_columns [['a'], ['a']] [0, 1] ['a'] (by decide) (by decide)

/-- C8: confirmed.  On the success path the execution block passes the
validated string to `cur.execute` unchanged, and the payload carries the
original natural-language query, that same SQL string, one mapping per
returned row whose keys are the result columns in database order (when
the column names are distinct), and a count equal to the number of rows. -/
theorem c8_executor {α : Type} (nl sql : List Char) (cols : List (List Char))
    (rows : List (List α)) (r : List α)
    (hnd : cols.Nodup) (hlen : ∀ x ∈ rows, x.length = cols.length)
    (hr : r ∈ rows) :
    executeQuery nl sql
        (DbBehavior.connOk (CursorBehavior.run (ExecBehavior.execOk cols rows)))
      = ⟨Except.ok ⟨nl, sql, rows.map (formatRow cols), rows.length⟩,
          true, some sql, true⟩
    ∧ formatRow cols r = cols.zip r
    ∧ (formatRow cols r).map Prod.fst = cols := by
  have hzip : ∀ x : List α, x.length = cols.length →
      (cols.zip x).map Prod.fst = cols :=
    fun x hx => List.map_fst_zip cols x (le_of_eq hx.symm)
  have hfr : formatRow cols r = cols.zip r := by
    rw [formatRow]
    apply pyDict_eq_self_of_nodup_keys
    rw [hzip r (hlen r hr)]
    exact hnd
  refine ⟨?_, hfr, by rw [hfr, hzip r (hlen r hr)]⟩
  simp [executeQuery, List.length_map]

/-- Witness for C8 on a one-row, one-column result set. -/
theorem c8_witness :
    executeQuery ("who won".toList) ("select surname from drivers".toList)
        (DbBehavior.connOk (CursorBehavior.run
          (ExecBehavior.execOk [['s']] ([[3]] : List (List Nat)))))
      = ⟨Except.ok ⟨"who won".toList, "select surname from drivers".toList,
          ([[3]] : List (List Nat)).map (formatRow [['s']]),
          ([[3]] : List (List Nat)).length⟩,
          true, some ("select surname from drivers".toList), true⟩
    ∧ formatRow [['s']] ([3] : List Nat) = [['s']].zip ([3] : List Nat)
    ∧ (formatRow [['s']] ([3] : List Nat)).map Prod.fst = [['s']] :=
  c8_executor ("who won".toList) ("select surname from drivers".toList)
    [['s']] [[3]] [3] (by decide) (by decide) (by decide)

/-- C9: counterexample.  When `conn.cursor()` itself raises, the
`finally` block's `cur.close()` hits an unbound `cur` and raises before
`connection_pool.putconn(conn)` runs, so the checked-out connection is
not returned — refuting "the connection is returned on every failure
path between checkout and return". -/
theorem c9_counterexample :
    (executeQuery ([] : List Char) []
        (DbBehavior.connOk (CursorBehavior.cursorFail (α := Nat)))).putconnCalled
      = false := rfl

/-- C9 (amended): the connection is returned to the pool on the success
path and on every failure path in which cursor creation succeeded (in
particular on execution errors); only a failure of `conn.cursor()` itself
skips the release, because `cur.close()` in the cleanup raises first. -/
theorem c9_release_after_cursor {α : Type} (nl sql : List Char)
    (c : CursorBehavior α) (h : c ≠ CursorBehavior.cursorFail) :
    (executeQuery nl sql (DbBehavior.connOk c)).putconnCalled = true := by
  cases c with
  | cursorFail => exact absurd rfl h
  | run e => cases e <;> rfl

/-- Witness for C9's amended statement on the execution-error path. -/
theorem c9_witness :
    (executeQuery ([] : List Char) []
        (DbBehavior.connOk (CursorBehavior.run
          (ExecBehavior.execFail (α := Nat) [])))).putconnCalled = true :=
  c9_release_after_cursor [] [] _ (by simp)
